import Mathlib

/-!
Shallow embedding of the BI-dashboard ingestion/enrichment pipeline:
categorization engine, enrichment orchestrator, batch state machine,
ingestion gateway, date-range validation and the reporting engine,
with theorems checking the specification's claims against the code.
-/

namespace BI

/-- Transaction text is modelled as a list of characters. -/
abbrev Text := List Char

/-- Python's `str.lower()` on the character list. -/
def lowerText (t : Text) : Text := t.map Char.toLower

/-- Python's `str.strip()`: drop whitespace from both ends. -/
def stripText (t : Text) : Text :=
  ((t.dropWhile Char.isWhitespace).reverse.dropWhile Char.isWhitespace).reverse

/-- Python's `a in b` substring test on texts. -/
def isSub (p t : Text) : Bool :=
  (List.range (t.length + 1)).any fun i => p.isPrefixOf (t.drop i)

/-! ### Categorization engine (`core/services/categorization.py`)

`DatabaseCategorizer` loads a snapshot mapping category names to their
patterns.  The database rows are modelled as an association list from
category name (in stored iteration order) to the raw pattern strings of
that category (in stored order); the cache is transparent to the result
and is not modelled. -/

/-- `DatabaseCategorizer.MIN_LENGTH`. -/
def MIN_LENGTH : Nat := 3

/-- `DatabaseCategorizer._load_patterns`: for each category, keep the
patterns whose stripped length is at least `MIN_LENGTH`, lowercase and
strip them, and sort longest-first (Python's stable `list.sort` with
`key=len, reverse=True`); keys are the lowercased category names. -/
def load_patterns (db : List (Text × List Text)) : List (Text × List Text) :=
  db.map fun cat =>
    (lowerText cat.1,
      List.insertionSort (fun a b => b.length ≤ a.length)
        ((cat.2.filter fun p => MIN_LENGTH ≤ (stripText p).length).map
          fun p => stripText (lowerText p)))

/-- `DatabaseCategorizer.categorize` given a loaded pattern snapshot:
normalize the text, reject empty or too-short text, then return the
first category whose pattern matches bidirectionally. -/
def categorize (patterns : List (Text × List Text)) (transaction_text : Text) :
    Text :=
  if transaction_text.isEmpty then "other".toList
  else
    let text := stripText (lowerText transaction_text)
    if text.length < MIN_LENGTH then "other".toList
    else
      match patterns.find? fun cat =>
          cat.2.any fun pattern => isSub pattern text || isSub text pattern with
      | some cat => cat.1
      | none => "other".toList

/-- Written from the claim's words, to compare with `categorize`: lowercase
and trim, return "other" on empty or short text, otherwise scan the
flattened (category, pattern) pairs of the snapshot in order and return the
first category owning a bidirectionally matching pattern, else "other". -/
def categorizeSpec (db : List (Text × List Text)) (transaction_text : Text) :
    Text :=
  let text := stripText (lowerText transaction_text)
  if text.isEmpty ∨ text.length < MIN_LENGTH then "other".toList
  else
    match ((load_patterns db).flatMap fun cat =>
        cat.2.map fun p => (cat.1, p)).find?
        (fun cp => isSub cp.2 text || isSub text cp.2) with
    | some cp => cp.1
    | none => "other".toList

/-! ### Enrichment orchestrator (`core/services/enrichment.py`) -/

/-- `TransactionEnrichmentService.enrich_transaction`, parameterized by the
injected categorizer.  `merchant_name or description or ""` is Python
truthiness: `None` and the empty string fall through, any non-empty string
(even all whitespace) is chosen. -/
def enrich_transaction (categorizer : Text → Text)
    (merchant_name description : Option Text) : Text :=
  let m : Text := (merchant_name.getD [])
  let d : Text := (description.getD [])
  let text_to_categorize := if m.isEmpty then d else m
  if (stripText text_to_categorize).isEmpty then "other".toList
  else categorizer text_to_categorize

/-! ### Data model (`core/models.py`) -/

/-- `Status` choices: pending `P`, processing `I`, completed `C`, failed `F`. -/
inductive Status where
  | pending
  | processing
  | completed
  | failed
deriving DecidableEq, Repr

/-- One `Transaction` row. `amount` is the fixed-point amount in cents,
`date` a timestamp.  `transaction_id` is the external dedup key. -/
structure TxnRow where
  transaction_id : Text
  account_id : Text
  batch : Option Nat
  amount : Int
  currency : Text
  date : Int
  authorized_date : Option Int
  merchant_name : Option Text
  description : Text
  payment_channel : Option Text
  pending : Bool
  category : Option Text
  ingestion_status : Status
deriving DecidableEq, Repr

/-- One `Batch` row (sans timestamps; creation order is the list order). -/
structure BatchRow where
  status : Status
  total_transactions : Int
  request_id : Option Text
deriving DecidableEq, Repr

/-- One `Account` row, keyed externally by `account_id`. -/
structure AccountRow where
  name : Text
  type : Text
  subtype : Option Text
  mask : Option Text
deriving DecidableEq, Repr

/-- The persistent store.  `batches` is an association list from batch id
to row kept in creation order (so `order_by('created_at')` is list order);
`nextBatch` models generation of a fresh batch id. -/
structure DB where
  accounts : List (Text × AccountRow)
  batches : List (Nat × BatchRow)
  transactions : List TxnRow
  nextBatch : Nat
deriving DecidableEq, Repr

/-- `Batch.objects.get(batch_id=bid)` (also `select_for_update`). -/
def DB.getBatch (db : DB) (bid : Nat) : Option BatchRow :=
  (db.batches.find? fun b => b.1 = bid).map Prod.snd

/-- `batch.status = st; batch.save(...)`. -/
def DB.setBatchStatus (db : DB) (bid : Nat) (st : Status) : DB :=
  { db with
    batches := db.batches.map fun b =>
      if b.1 = bid then (b.1, { b.2 with status := st }) else b }

/-! ### Batch processor (`core/tasks.py`)

Enrichment goes through the enrichment service and the database-backed
categorizer; any exception it may raise (step 4 of the single-batch
algorithm) is modelled by passing the enrichment step as a fallible
function `enrich : merchant_name → description → Except Unit Text`. -/

/-- Whether a transaction is selected by
`Transaction.objects.filter(batch=batch, ingestion_status=PENDING)`. -/
def txnSelected (bid : Nat) (t : TxnRow) : Bool :=
  t.batch == some bid && t.ingestion_status == Status.pending

/-- The per-transaction update of the loop body: assign the enriched
category and mark the transaction `COMPLETED`.  (The `error` branch is
unreachable where this is used: the caller has already checked that
enrichment succeeds on every selected transaction.) -/
def enrichTxn (enrich : Option Text → Text → Except Unit Text) (t : TxnRow) :
    TxnRow :=
  match enrich t.merchant_name t.description with
  | .ok c => { t with category := some c, ingestion_status := .completed }
  | .error _ => t

/-- `process_single_batch` under its `@transaction.atomic` decorator.
Returns the resulting store and whether an exception propagated.  When the
`try` body raises, the `except` branch saves `FAILED` and re-raises; the
re-raise leaves the atomic block with an exception, so *every* write of
the call — including that `FAILED` save — is rolled back and the store is
returned unchanged. -/
def process_single_batch (enrich : Option Text → Text → Except Unit Text)
    (db : DB) (bid : Nat) : DB × Bool :=
  match db.getBatch bid with
  | none => (db, true)
  | some batch =>
    if batch.status = .processing ∨ batch.status = .completed then (db, false)
    else
      let db1 := db.setBatchStatus bid .processing
      let txns := db1.transactions.filter (txnSelected bid)
      if txns.any fun t => !(enrich t.merchant_name t.description).isOk then
        (db, true)
      else
        let db2 := { db1 with
          transactions := db1.transactions.map fun t =>
            if txnSelected bid t then enrichTxn enrich t else t }
        (db2.setBatchStatus bid .completed, false)

/-- `process_batch_async`: calls `process_single_batch` and catches any
exception, reporting failure in its return value; the store effect is that
of `process_single_batch` itself. -/
def process_batch_async (enrich : Option Text → Text → Except Unit Text)
    (db : DB) (bid : Nat) : DB × Bool :=
  process_single_batch enrich db bid

/-- One iteration of the sweep loop: process the batch; on an exception,
count it failed and persist `FAILED` on the batch row (this save happens
outside any atomic block, so it sticks); otherwise count it processed. -/
def sweepStep (enrich : Option Text → Text → Except Unit Text)
    (acc : DB × Nat × Nat) (bid : Nat) : DB × Nat × Nat :=
  let (d, p, f) := acc
  let r := process_single_batch enrich d bid
  if r.2 then (r.1.setBatchStatus bid .failed, p, f + 1)
  else (r.1, p + 1, f)

/-- Whether enrichment raises on some transaction selected for the batch
(batch member still `PENDING`) — the condition under which a single-batch
run propagates an exception and the sweep then marks the batch
`FAILED`. -/
def batchEnrichFails (enrich : Option Text → Text → Except Unit Text)
    (db : DB) (bid : Nat) : Bool :=
  (db.transactions.filter (txnSelected bid)).any
    fun t => !(enrich t.merchant_name t.description).isOk

/-- `process_pending_batches`: load the ids of all `PENDING` batches
oldest-first and process each sequentially, returning the final store and
the `{processed, failed}` counts. -/
def process_pending_batches (enrich : Option Text → Text → Except Unit Text)
    (db : DB) : DB × Nat × Nat :=
  let pending := (db.batches.filter fun b => b.2.status = .pending).map Prod.fst
  pending.foldl (sweepStep enrich) (db, 0, 0)

/-! ### Ingestion gateway (`core/serializers.py`, `core/views.py`) -/

/-- An account object of the raw payload; `none` models a missing field. -/
structure RawAccount where
  account_id : Option Text
  name : Option Text
  type : Option Text
  subtype : Option Text
  mask : Option Text

/-- A transaction object of the raw payload. -/
structure RawTxn where
  transaction_id : Option Text
  account_id : Option Text
  amount : Option Int
  iso_currency_code : Option Text
  date : Option Int
  authorized_date : Option Int
  name : Option Text
  merchant_name : Option Text
  payment_channel : Option Text
  pending : Option Bool

/-- The raw ingestion payload. -/
structure RawPayload where
  accounts : Option (List RawAccount)
  transactions : Option (List RawTxn)
  total_transactions : Option Int
  request_id : Option Text

/-- A validated account (required fields of `AccountSerializer` present). -/
structure ValidAccount where
  account_id : Text
  name : Text
  type : Text
  subtype : Option Text
  mask : Option Text

/-- A validated transaction (required fields of `TransactionSerializer`
present; `pending` defaulted to `false`). -/
structure ValidTxn where
  transaction_id : Text
  account_id : Text
  amount : Int
  iso_currency_code : Text
  date : Int
  authorized_date : Option Int
  name : Text
  merchant_name : Option Text
  payment_channel : Option Text
  pending : Bool

/-- A validated payload. -/
structure ValidPayload where
  accounts : List ValidAccount
  transactions : List ValidTxn
  total_transactions : Int
  request_id : Option Text

/-- Field validation of one raw account. -/
def validateAccount (a : RawAccount) : Option ValidAccount :=
  match a.account_id, a.name, a.type with
  | some i, some n, some t =>
    some { account_id := i, name := n, type := t, subtype := a.subtype,
           mask := a.mask }
  | _, _, _ => none

/-- Field validation of one raw transaction. -/
def validateTxn (t : RawTxn) : Option ValidTxn :=
  match t.transaction_id, t.account_id, t.amount, t.iso_currency_code,
      t.date, t.name with
  | some i, some a, some m, some c, some d, some n =>
    some { transaction_id := i, account_id := a, amount := m,
           iso_currency_code := c, date := d,
           authorized_date := t.authorized_date, name := n,
           merchant_name := t.merchant_name,
           payment_channel := t.payment_channel,
           pending := t.pending.getD false }
  | _, _, _, _, _, _ => none

/-- `BatchIngestionRequestSerializer.is_valid()`: every required field of
the payload and of each nested object must be present. -/
def validatePayload (p : RawPayload) : Option ValidPayload :=
  match p.accounts, p.transactions, p.total_transactions with
  | some accs, some txns, some tot =>
    match accs.mapM validateAccount, txns.mapM validateTxn with
    | some vaccs, some vtxns =>
      some { accounts := vaccs, transactions := vtxns,
             total_transactions := tot, request_id := p.request_id }
    | _, _ => none
  | _, _, _ => none

/-- One step of `Account.objects.bulk_create(update_conflicts=True,
unique_fields=['account_id'])`: on an `account_id` conflict overwrite
`name/type/subtype/mask`, otherwise insert. -/
def upsertAccount (accs : List (Text × AccountRow)) (a : ValidAccount) :
    List (Text × AccountRow) :=
  if accs.any fun e => e.1 = a.account_id then
    accs.map fun e =>
      if e.1 = a.account_id then
        (e.1, { name := a.name, type := a.type, subtype := a.subtype,
                mask := a.mask })
      else e
  else
    accs ++ [(a.account_id,
      { name := a.name, type := a.type, subtype := a.subtype,
        mask := a.mask })]

/-- The `Transaction(...)` constructed for the new batch during ingestion
(`description` comes from the payload's `name`, `ingestion_status`
defaults to `PENDING`, `category` is null until enriched). -/
def mkTxn (bid : Nat) (t : ValidTxn) : TxnRow :=
  { transaction_id := t.transaction_id, account_id := t.account_id,
    batch := some bid, amount := t.amount, currency := t.iso_currency_code,
    date := t.date, authorized_date := t.authorized_date,
    merchant_name := t.merchant_name, description := t.name,
    payment_channel := t.payment_channel, pending := t.pending,
    category := none, ingestion_status := .pending }

/-- One step of `Transaction.objects.bulk_create(ignore_conflicts=True)`:
a row whose `transaction_id` already exists is skipped, not updated. -/
def insertTxnIgnore (bid : Nat) (txs : List TxnRow) (t : ValidTxn) :
    List TxnRow :=
  if txs.any fun e => e.transaction_id = t.transaction_id then txs
  else txs ++ [mkTxn bid t]

/-- A point at which the atomic write of
`BatchIngestionRequestSerializer.create` may raise (infrastructure
failure during one of its three steps). -/
inductive IngestStep where
  | accounts
  | batch
  | transactions
deriving DecidableEq, Repr

/-- `BatchIngestionRequestSerializer.create` under `@transaction.atomic`,
with `oracle` saying which step (if any) raises: upsert accounts, create
the `PENDING` batch, bulk-insert transactions skipping duplicate ids.  An
error leaves the atomic block, so the caller observes the store
unchanged. -/
def serializer_create (oracle : Option IngestStep) (db : DB)
    (p : ValidPayload) : Except Unit (DB × Nat) :=
  if oracle = some .accounts then .error ()
  else
    let accounts1 := p.accounts.foldl upsertAccount db.accounts
    if oracle = some .batch then .error ()
    else
      let bid := db.nextBatch
      let batches1 := db.batches ++
        [(bid, { status := .pending,
                 total_transactions := p.total_transactions,
                 request_id := p.request_id })]
      if oracle = some .transactions then .error ()
      else
        let transactions1 := p.transactions.foldl (insertTxnIgnore bid)
          db.transactions
        .ok ({ accounts := accounts1, batches := batches1,
               transactions := transactions1,
               nextBatch := db.nextBatch + 1 }, bid)

/-- HTTP-level outcome of `BatchIngestionView.post`. -/
inductive IngestResp where
  | badRequest
  | serverError
  | accepted (bid : Nat)
deriving DecidableEq, Repr

/-- `BatchIngestionView.post`: validate, then run the atomic create; a
validation failure is a 400 before any write, an exception from the
atomic block is caught and reported as a 500 with the write set rolled
back, success is a 202 with the new batch id (the async processing
trigger is a side effect outside the store). -/
def batch_ingestion_post (oracle : Option IngestStep) (db : DB)
    (p : RawPayload) : DB × IngestResp :=
  match validatePayload p with
  | none => (db, .badRequest)
  | some vp =>
    match serializer_create oracle db vp with
    | .error _ => (db, .serverError)
    | .ok (db1, bid) => (db1, .accepted bid)

/-! ### Date-range validation (`core/utils.py`)

`validate_date_range` parses its two parameters with
`datetime.strptime(s, '%Y-%m-%d')`; the parser below follows CPython's
`_strptime` regex fragments for `%Y` (four digits), `%m`
(`1[0-2]|0[1-9]|[1-9]`) and `%d` (`3[01]|[12]\x5cd|0[1-9]|[1-9]`),
anchored to the whole string, followed by `datetime`'s calendar
validation (year at least 1, day within the month's length). -/

/-- Calendar date. -/
structure Date where
  year : Nat
  month : Nat
  day : Nat
deriving DecidableEq, Repr

/-- Gregorian leap-year test. -/
def isLeap (y : Nat) : Bool :=
  (y % 4 = 0 && y % 100 ≠ 0) || y % 400 = 0

/-- Length of a month. -/
def daysInMonth (y m : Nat) : Nat :=
  if m = 2 then (if isLeap y then 29 else 28)
  else if m = 4 ∨ m = 6 ∨ m = 9 ∨ m = 11 then 30
  else 31

/-- Days in the months strictly before `m`. -/
def daysBeforeMonth (y m : Nat) : Nat :=
  ((List.range' 1 (m - 1)).map (daysInMonth y)).sum

/-- `date.toordinal()`: day number of the proleptic Gregorian calendar,
with 0001-01-01 as day 1. -/
def Date.toOrdinal (d : Date) : Nat :=
  365 * (d.year - 1) + (d.year - 1) / 4 - (d.year - 1) / 100 +
    (d.year - 1) / 400 + daysBeforeMonth d.year d.month + d.day

/-- Digit value of a character, if it is a digit. -/
def digitVal (c : Char) : Option Nat :=
  if c.isDigit then some (c.toNat - '0'.toNat) else none

/-- `%m`: one or two digits forming a month 1–12, two-digit forms limited
to `01`–`09` and `10`–`12`; returns the value and the rest of the input. -/
def parseMonth : Text → Option (Nat × Text)
  | c1 :: c2 :: rest =>
    match digitVal c1, digitVal c2 with
    | some d1, some d2 =>
      if (d1 = 1 ∧ d2 ≤ 2) ∨ (d1 = 0 ∧ 1 ≤ d2) then
        some (10 * d1 + d2, rest)
      else if 1 ≤ d1 then some (d1, c2 :: rest) else none
    | some d1, none => if 1 ≤ d1 then some (d1, c2 :: rest) else none
    | none, _ => none
  | [c1] =>
    match digitVal c1 with
    | some d1 => if 1 ≤ d1 then some (d1, []) else none
    | none => none
  | [] => none

/-- `%d`: one or two digits forming a day 1–31, two-digit forms limited to
`01`–`09`, `10`–`29` and `30`–`31`. -/
def parseDay : Text → Option (Nat × Text)
  | c1 :: c2 :: rest =>
    match digitVal c1, digitVal c2 with
    | some d1, some d2 =>
      if (d1 = 3 ∧ d2 ≤ 1) ∨ d1 = 1 ∨ d1 = 2 ∨ (d1 = 0 ∧ 1 ≤ d2) then
        some (10 * d1 + d2, rest)
      else if 1 ≤ d1 then some (d1, c2 :: rest) else none
    | some d1, none => if 1 ≤ d1 then some (d1, c2 :: rest) else none
    | none, _ => none
  | [c1] =>
    match digitVal c1 with
    | some d1 => if 1 ≤ d1 then some (d1, []) else none
    | none => none
  | [] => none

/-- `datetime.strptime(s, '%Y-%m-%d').date()`: four year digits, `-`,
month, `-`, day, end of string, then calendar validation. -/
def parseDate (s : Text) : Option Date :=
  match s with
  | y1 :: y2 :: y3 :: y4 :: '-' :: rest =>
    match digitVal y1, digitVal y2, digitVal y3, digitVal y4 with
    | some a, some b, some c, some d =>
      let y := 1000 * a + 100 * b + 10 * c + d
      match parseMonth rest with
      | some (m, rest2) =>
        match rest2 with
        | '-' :: rest3 =>
          match parseDay rest3 with
          | some (dy, []) =>
            if 1 ≤ y ∧ dy ≤ daysInMonth y m then
              some { year := y, month := m, day := dy }
            else none
          | _ => none
        | _ => none
      | none => none
    | _, _, _, _ => none
  | _ => none

/-- The distinct `ValidationError` kinds of `validate_date_range`. -/
inductive DateErr where
  | invalidStart
  | invalidEnd
  | endBeforeStart
  | rangeTooLarge
deriving DecidableEq, Repr

/-- `validate_date_range`: parse both parameters, reject
`end_date < start_date`, reject a span of more than 365 days. -/
def validate_date_range (start_date_str end_date_str : Text) :
    Except DateErr (Date × Date) :=
  match parseDate start_date_str with
  | none => .error .invalidStart
  | some start_date =>
    match parseDate end_date_str with
    | none => .error .invalidEnd
    | some end_date =>
      if end_date.toOrdinal < start_date.toOrdinal then .error .endBeforeStart
      else if 365 < end_date.toOrdinal - start_date.toOrdinal then
        .error .rangeTooLarge
      else .ok (start_date, end_date)

/-! ### Reporting engine (`core/views.py` summary aggregation,
`core/serializers.py` percentage) -/

/-- Round to the nearest integer, ties to even (`decimal`'s
`ROUND_HALF_EVEN`, used by `round` on `Decimal`). -/
def roundHalfEven (q : ℚ) : ℤ :=
  let f := ⌊q⌋
  let r := q - f
  if r < 1 / 2 then f
  else if 1 / 2 < r then f + 1
  else if f % 2 = 0 then f else f + 1

/-- `round(x, 2)`. -/
def round2 (q : ℚ) : ℚ := (roundHalfEven (q * 100) : ℚ) / 100

/-- `TopCategorySerializer.get_percentage_of_spend` with the view's
context: `0` when the (signed) total spend is zero, otherwise the
category's share of the absolute total, as a percentage rounded to two
decimals (rationals stand in for `decimal` arithmetic). -/
def get_percentage_of_spend (total_spend cat_spend : Int) : ℚ :=
  if total_spend = 0 then 0
  else round2 ((|cat_spend| : ℚ) / (|total_spend| : ℚ) * 100)

/-- One entry of the `top_categories` response list. -/
structure TopCat where
  category : Text
  total_spend : Int
  transaction_count : Nat
  percentage_of_spend : ℚ
deriving DecidableEq, Repr

/-- `.values('category').annotate(total_spend=Sum('amount'),
transaction_count=Count('id'))`: group rows by category, each group
carrying its summed amount and row count. -/
def addToGroups (gs : List (Option Text × Int × Nat)) (t : TxnRow) :
    List (Option Text × Int × Nat) :=
  if gs.any fun g => g.1 = t.category then
    gs.map fun g =>
      if g.1 = t.category then (g.1, g.2.1 + t.amount, g.2.2 + 1) else g
  else gs ++ [(t.category, t.amount, 1)]

/-- Grouping of a transaction list by `category`. -/
def groupByCategory (l : List TxnRow) : List (Option Text × Int × Nat) :=
  l.foldl addToGroups []

/-- The summary response computed by `AccountSummaryAPIView.get` (cache
transparent to the computed value). -/
structure SummaryOut where
  total_transactions : Nat
  total_spend : Int
  total_income : Int
  net : Int
  top_categories : List TopCat
  status_pending : Nat
  status_processing : Nat
  status_completed : Nat
  status_failed : Nat
deriving DecidableEq, Repr

/-- `transactions_qs`: the account's transactions within the inclusive
date window. -/
def summary_qs (txns : List TxnRow) (aid : Text) (startDT endDT : Int) :
    List TxnRow :=
  txns.filter fun t =>
    t.account_id = aid ∧ startDT ≤ t.date ∧ t.date ≤ endDT

/-- `total_spend` of the aggregate, still signed: `Sum(Case(When(
amount__lt=0, then='amount'), default=0))`. -/
def summary_total_spend_signed (m : List TxnRow) : Int :=
  (m.map fun t => if t.amount < 0 then t.amount else 0).sum

/-- `total_income`: `Sum(Case(When(amount__gte=0, then='amount'),
default=0))`. -/
def summary_total_income (m : List TxnRow) : Int :=
  (m.map fun t => if 0 ≤ t.amount then t.amount else 0).sum

/-- `top_categories_data`: group the expense rows by category with summed
amount and row count, order by `total_spend` ascending (most negative
first) and keep three. -/
def top_categories_data (m : List TxnRow) :
    List (Option Text × Int × Nat) :=
  (List.insertionSort (fun a b => a.2.1 ≤ b.2.1)
    (groupByCategory (m.filter fun t => t.amount < 0))).take 3

/-- The aggregation of `AccountSummaryAPIView.get` over the store's
transactions: filter by account and inclusive date window, sum negative
and non-negative amounts, rank the spending groups most-negative first
and keep three, displaying absolute amounts, `"Uncategorized"` for a
null category, and the percentage of total spend. -/
def account_summary (txns : List TxnRow) (aid : Text)
    (startDT endDT : Int) : SummaryOut :=
  let m := summary_qs txns aid startDT endDT
  let total_spend_signed := summary_total_spend_signed m
  let total_income := summary_total_income m
  { total_transactions := m.length
    total_spend := |total_spend_signed|
    total_income := total_income
    net := total_income + total_spend_signed
    top_categories := (top_categories_data m).map fun g =>
      { category := g.1.getD "Uncategorized".toList
        total_spend := |g.2.1|
        transaction_count := g.2.2
        percentage_of_spend := get_percentage_of_spend total_spend_signed g.2.1 }
    status_pending := (m.filter fun t => t.ingestion_status = .pending).length
    status_processing :=
      (m.filter fun t => t.ingestion_status = .processing).length
    status_completed :=
      (m.filter fun t => t.ingestion_status = .completed).length
    status_failed := (m.filter fun t => t.ingestion_status = .failed).length }

/-- Totality of the ranking comparison, for the sortedness lemma. -/
instance : IsTotal (Option Text × Int × Nat) (fun a b => a.2.1 ≤ b.2.1) :=
  ⟨fun a b => Int.le_total a.2.1 b.2.1⟩

/-- Transitivity of the ranking comparison, for the sortedness lemma. -/
instance : IsTrans (Option Text × Int × Nat) (fun a b => a.2.1 ≤ b.2.1) :=
  ⟨fun _ _ _ h1 h2 => le_trans h1 h2⟩

/-! ### Concrete fixtures used to instantiate the theorems -/

/-- A transaction of batch 0, not yet enriched. -/
def oneTxn : TxnRow :=
  { transaction_id := "t1".toList, account_id := "a1".toList,
    batch := some 0, amount := -500, currency := "USD".toList, date := 0,
    authorized_date := none, merchant_name := none,
    description := "coffee shop".toList, payment_channel := none,
    pending := false, category := none, ingestion_status := .pending }

/-- A store holding one `PENDING` batch (id 0) with one `PENDING`
transaction. -/
def onePendingBatchDB : DB :=
  { accounts := [],
    batches := [(0, { status := .pending, total_transactions := 1,
                      request_id := none })],
    transactions := [oneTxn], nextBatch := 1 }

/-- The same store with the batch already `PROCESSING`. -/
def oneProcessingBatchDB : DB :=
  { onePendingBatchDB with
    batches := [(0, { status := .processing, total_transactions := 1,
                      request_id := none })] }

/-- The same store with the batch `FAILED`. -/
def oneFailedBatchDB : DB :=
  { onePendingBatchDB with
    batches := [(0, { status := .failed, total_transactions := 1,
                      request_id := none })] }

/-- An empty store. -/
def emptyDB : DB :=
  { accounts := [], batches := [], transactions := [], nextBatch := 0 }

/-- A well-formed raw account object. -/
def rawAccountA : RawAccount :=
  { account_id := some "a1".toList, name := some "Checking".toList,
    type := some "depository".toList, subtype := none, mask := none }

/-- A well-formed raw transaction object with the id `t1` also used by
`oneTxn`. -/
def rawTxnT1 : RawTxn :=
  { transaction_id := some "t1".toList, account_id := some "a1".toList,
    amount := some (-500), iso_currency_code := some "USD".toList,
    date := some 0, authorized_date := none,
    name := some "coffee shop".toList, merchant_name := none,
    payment_channel := none, pending := none }

/-- A payload that re-submits the already-stored transaction `t1`. -/
def rawPayloadDup : RawPayload :=
  { accounts := some [rawAccountA], transactions := some [rawTxnT1],
    total_transactions := some 1, request_id := none }

/-- A payload with the required `accounts` field missing. -/
def rawPayloadMissing : RawPayload :=
  { accounts := none, transactions := some [rawTxnT1],
    total_transactions := some 1, request_id := none }

/-- An enrichment step that always raises. -/
def enrichRaise : Option Text → Text → Except Unit Text := fun _ _ => .error ()

/-- An enrichment step that always succeeds with category `food`. -/
def enrichFood : Option Text → Text → Except Unit Text :=
  fun _ _ => .ok "food".toList

/-! ## Theorems -/

/-- Scanning the flattened (category, pattern) pairs finds the same
category as the nested scan that takes the first category owning any
matching pattern. -/
theorem find?_flatMap_pairs (q : Text → Bool) (l : List (Text × List Text)) :
    ((l.flatMap fun cat => cat.2.map fun p => (cat.1, p)).find?
        (fun cp => q cp.2)).map Prod.fst
      = (l.find? fun cat => cat.2.any q).map Prod.fst := by
  induction l with
  | nil => rfl
  | cons hd tl ih =>
    rw [List.flatMap_cons, List.find?_append, List.find?_map]
    by_cases h : hd.2.any q
    · have hsome : (hd.2.find? q).isSome := by
        rw [List.find?_isSome]
        simpa using List.any_eq_true.mp h
      obtain ⟨p₀, hp₀⟩ := Option.isSome_iff_exists.mp hsome
      have hcons : (hd :: tl).find? (fun cat => cat.2.any q) = some hd :=
        List.find?_cons_of_pos _ h
      have hcomp : (fun cp : Text × Text => q cp.2) ∘
          (fun p => (hd.1, p)) = q := rfl
      rw [hcons, hcomp, hp₀]
      rfl
    · have hnone : hd.2.find? q = none := by
        rw [List.find?_eq_none]
        intro x hx hqx
        exact h (List.any_eq_true.mpr ⟨x, hx, hqx⟩)
      have hcomp : (fun cp : Text × Text => q cp.2) ∘
          (fun p => (hd.1, p)) = q := rfl
      have hcons : (hd :: tl).find? (fun cat => cat.2.any q)
          = tl.find? (fun cat => cat.2.any q) :=
        List.find?_cons_of_neg _ (by simpa using h)
      rw [hcons, hcomp, hnone, ← ih]
      rfl

/-- C3: for every input text, `categorize` lowercases and trims it,
returns "other" on empty or too-short (< 3 characters) text, and
otherwise returns the name of the first category — snapshot order,
patterns longest-first within each category — owning a pattern `p` with
`p` a substring of the text or the text a substring of `p`, stopping at
the first match; with no match it returns "other".  Stated as equality
with `categorizeSpec`, the direct transcription of that description. -/
theorem categorize_eq_categorizeSpec (db : List (Text × List Text))
    (t : Text) : categorize (load_patterns db) t = categorizeSpec db t := by
  have hmatch : ∀ (o : Option (Text × List Text)),
      (match o with | some c => c.1 | none => "other".toList)
        = (o.map Prod.fst).getD "other".toList := by
    intro o; cases o <;> rfl
  unfold categorize categorizeSpec
  by_cases h : t.isEmpty
  · have ht : t = [] := List.isEmpty_iff.mp h
    subst ht
    simp [lowerText, stripText, MIN_LENGTH]
  · simp only [h, if_false, Bool.false_eq_true]
    set text := stripText (lowerText t) with htext
    by_cases h2 : text.length < MIN_LENGTH
    · have : (text.isEmpty ∨ text.length < MIN_LENGTH) := Or.inr h2
      simp [h2, this]
    · have hne : ¬(text.isEmpty = true ∨ text.length < MIN_LENGTH) := by
        rintro (he | hl)
        · exact h2 (by simp [List.isEmpty_iff.mp he, MIN_LENGTH])
        · exact h2 hl
      have hmatch2 : ∀ (o : Option (Text × Text)),
          (match o with | some cp => cp.1 | none => "other".toList)
            = (o.map Prod.fst).getD "other".toList := by
        intro o; cases o <;> rfl
      rw [if_neg h2, if_neg hne, hmatch, hmatch2,
        find?_flatMap_pairs (fun p => isSub p text || isSub text p)
          (load_patterns db)]

/-- C2 counterexample: with the category `transport` owning pattern
`uber`, a whitespace-only `merchant_name` and description `Uber` yield
`"other"` — not `categorize("Uber") = "transport"` as the claim's final
part asserts. -/
theorem enrich_whitespace_merchant_counterexample :
    enrich_transaction
        (categorize (load_patterns [("transport".toList, ["uber".toList])]))
        (some "   ".toList) (some "Uber".toList) = "other".toList
      ∧ categorize (load_patterns [("transport".toList, ["uber".toList])])
          "Uber".toList = "transport".toList
      ∧ ("other".toList : Text) ≠ "transport".toList := by
  refine ⟨by decide, by decide, by decide⟩

/-- C2 (amended): `enrich` chooses `merchant_name` when it is present and
non-empty — even if whitespace-only — otherwise `description`; whenever
the chosen text strips to blank it returns "other" without invoking the
categorizer; in particular a whitespace-only merchant name yields
"other" regardless of the description. -/
theorem enrich_transaction_choice (categorizer : Text → Text)
    (merchant_name description : Option Text) :
    (∀ m, merchant_name = some m → m ≠ [] →
      enrich_transaction categorizer merchant_name description
        = (if (stripText m).isEmpty then "other".toList else categorizer m))
    ∧ ((merchant_name = none ∨ merchant_name = some []) → ∀ d,
        description = some d →
        enrich_transaction categorizer merchant_name description
          = (if (stripText d).isEmpty then "other".toList else categorizer d))
    ∧ ((merchant_name.getD []).isEmpty ∧ (description.getD []).isEmpty →
        enrich_transaction categorizer merchant_name description
          = "other".toList) := by
  refine ⟨?_, ?_, ?_⟩
  · intro m hm hne
    subst hm
    simp only [enrich_transaction, Option.getD_some]
    rw [if_neg (show ¬(m.isEmpty = true) by
      simpa [List.isEmpty_iff] using hne)]
  · intro hm d hd
    subst hd
    rcases hm with hm | hm <;> subst hm <;>
      simp [enrich_transaction]
  · rintro ⟨hm, hd⟩
    simp only [enrich_transaction]
    rw [if_pos hm, List.isEmpty_iff.mp hd]
    rfl

/-- C2 witness: instantiation of the amended claim on concrete inputs. -/
theorem enrich_transaction_choice_witness :
    enrich_transaction (fun _ => "transport".toList)
        (some "Uber".toList) (some "desc".toList) = "transport".toList := by
  have h := (enrich_transaction_choice (fun _ => "transport".toList)
      (some "Uber".toList) (some "desc".toList)).1 "Uber".toList rfl
      (by decide)
  rw [h]
  decide

/-! ### State machine lemmas -/

/-- `find?` by key commutes with a key-preserving map. -/
theorem find?_map_of_key_eq {α : Type} (g : Nat × α → Nat × α)
    (hg : ∀ b, (g b).1 = b.1) (l : List (Nat × α)) (bid : Nat) :
    (l.map g).find? (fun b => b.1 = bid)
      = (l.find? fun b => b.1 = bid).map g := by
  induction l with
  | nil => rfl
  | cons hd tl ih =>
    by_cases h : hd.1 = bid
    · rw [List.map_cons,
        List.find?_cons_of_pos _ (by simp [hg, h]),
        List.find?_cons_of_pos _ (by simp [h])]
      rfl
    · rw [List.map_cons,
        List.find?_cons_of_neg _ (by simp [hg, h]),
        List.find?_cons_of_neg _ (by simp [h])]
      exact ih

/-- Saving a status on batch `bid` rewrites exactly that row. -/
theorem getBatch_setBatchStatus_self (db : DB) (bid : Nat) (st : Status) :
    (db.setBatchStatus bid st).getBatch bid
      = (db.getBatch bid).map fun r => { r with status := st } := by
  unfold DB.getBatch DB.setBatchStatus
  rw [find?_map_of_key_eq (fun b => if b.1 = bid then
        (b.1, { b.2 with status := st }) else b)
      (by intro b; by_cases h : b.1 = bid <;> simp [h]) db.batches bid]
  rcases hf : db.batches.find? fun b => b.1 = bid with _ | e
  · rw [hf]; rfl
  · have he : e.1 = bid := by simpa using List.find?_some hf
    rw [hf]
    simp [he]

/-- Saving a status on batch `bid` leaves every other batch row alone. -/
theorem getBatch_setBatchStatus_ne (db : DB) (bid bid' : Nat) (st : Status)
    (h : bid' ≠ bid) :
    (db.setBatchStatus bid st).getBatch bid' = db.getBatch bid' := by
  unfold DB.getBatch DB.setBatchStatus
  rw [find?_map_of_key_eq (fun b => if b.1 = bid then
        (b.1, { b.2 with status := st }) else b)
      (by intro b; by_cases hb : b.1 = bid <;> simp [hb]) db.batches bid']
  rcases hf : db.batches.find? fun b => b.1 = bid' with _ | e
  · rw [hf]; rfl
  · have he : e.1 = bid' := by simpa using List.find?_some hf
    rw [hf]
    simp [he, h]

/-- Batch rows are untouched by a write to the transactions column. -/
theorem getBatch_set_transactions (db : DB) (ts : List TxnRow) (bid : Nat) :
    ({ db with transactions := ts } : DB).getBatch bid = db.getBatch bid :=
  rfl

/-- `process_single_batch` never touches another batch's row. -/
theorem getBatch_process_single_batch_ne
    (enrich : Option Text → Text → Except Unit Text) (db : DB)
    (bid bid' : Nat) (h : bid' ≠ bid) :
    (process_single_batch enrich db bid).1.getBatch bid'
      = db.getBatch bid' := by
  rcases hgb : db.getBatch bid with _ | b
  · simp only [process_single_batch, hgb]
  · simp only [process_single_batch, hgb]
    by_cases hguard : b.status = .processing ∨ b.status = .completed
    · rw [if_pos hguard]
    · rw [if_neg hguard]
      split
      · rfl
      · show (DB.setBatchStatus _ bid .completed).getBatch bid' = _
        rw [getBatch_setBatchStatus_ne _ _ _ _ h, getBatch_set_transactions,
          getBatch_setBatchStatus_ne _ _ _ _ h]

/-- One sweep iteration on a different batch id leaves a batch row
alone. -/
theorem getBatch_sweepStep_ne (enrich : Option Text → Text → Except Unit Text)
    (d : DB) (p f : Nat) (bid' bid : Nat) (h : bid ≠ bid') :
    (sweepStep enrich (d, p, f) bid').1.getBatch bid = d.getBatch bid := by
  simp only [sweepStep]
  by_cases hr : (process_single_batch enrich d bid').2 = true
  · simp only [hr, if_true]
    rw [getBatch_setBatchStatus_ne _ _ _ _ h,
      getBatch_process_single_batch_ne _ _ _ _ h]
  · simp only [hr, if_false, Bool.false_eq_true]
    exact getBatch_process_single_batch_ne _ _ _ _ h

/-- One sweep iteration on a batch whose row is `PENDING`, `COMPLETED` or
`FAILED` leaves that row `COMPLETED` or `FAILED`. -/
theorem getBatch_sweepStep_self
    (enrich : Option Text → Text → Except Unit Text) (d : DB) (p f : Nat)
    (bid : Nat) (b : BatchRow) (hb : d.getBatch bid = some b)
    (hst : b.status = .pending ∨ b.status = .completed ∨
      b.status = .failed) :
    ∃ b', (sweepStep enrich (d, p, f) bid).1.getBatch bid = some b'
      ∧ (b'.status = .completed ∨ b'.status = .failed) := by
  by_cases hguard : b.status = .processing ∨ b.status = .completed
  · have hco : b.status = .completed := by
      rcases hguard with hg | hg
      · rcases hst with h1 | h1 | h1 <;> rw [hg] at h1 <;> cases h1
      · exact hg
    have hnoop : process_single_batch enrich d bid = (d, false) := by
      simp only [process_single_batch, hb]
      rw [if_pos hguard]
    refine ⟨b, ?_, Or.inl hco⟩
    simp only [sweepStep, hnoop]
    simpa using hb
  · by_cases hany : ((d.setBatchStatus bid .processing).transactions.filter
          (txnSelected bid)).any
        (fun t => !(enrich t.merchant_name t.description).isOk) = true
    · have hps : process_single_batch enrich d bid = (d, true) := by
        simp only [process_single_batch, hb]
        rw [if_neg hguard, if_pos hany]
      refine ⟨{ b with status := .failed }, ?_, Or.inr rfl⟩
      simp only [sweepStep, hps, if_true]
      rw [getBatch_setBatchStatus_self, hb]
      rfl
    · have hps2 : (process_single_batch enrich d bid).2 = false := by
        simp only [process_single_batch, hb]
        rw [if_neg hguard, if_neg hany]
      have hps1 : (process_single_batch enrich d bid).1.getBatch bid
          = some { b with status := .completed } := by
        simp only [process_single_batch, hb]
        rw [if_neg hguard, if_neg hany]
        show (DB.setBatchStatus _ bid .completed).getBatch bid = _
        rw [getBatch_setBatchStatus_self, getBatch_set_transactions,
          getBatch_setBatchStatus_self, hb]
        rfl
      refine ⟨{ b with status := .completed }, ?_, Or.inl rfl⟩
      simp only [sweepStep, hps2]
      simpa using hps1

/-- A batch row already `COMPLETED` or `FAILED` stays so through the rest
of a sweep. -/
theorem sweep_fold_absorb (enrich : Option Text → Text → Except Unit Text)
    (l : List Nat) (acc : DB × Nat × Nat) (bid : Nat) (b : BatchRow)
    (hb : acc.1.getBatch bid = some b)
    (hst : b.status = .completed ∨ b.status = .failed) :
    ∃ b', (l.foldl (sweepStep enrich) acc).1.getBatch bid = some b'
      ∧ (b'.status = .completed ∨ b'.status = .failed) := by
  induction l generalizing acc b with
  | nil => exact ⟨b, hb, hst⟩
  | cons hd tl ih =>
    obtain ⟨d, p, f⟩ := acc
    by_cases h : bid = hd
    · subst h
      obtain ⟨b', hb', hst'⟩ := getBatch_sweepStep_self enrich d p f bid b hb
        (Or.inr hst)
      exact ih _ _ hb' hst'
    · have hb' : (sweepStep enrich (d, p, f) hd).1.getBatch bid = some b := by
        rw [getBatch_sweepStep_ne _ _ _ _ _ _ h]; exact hb
      exact ih _ _ hb' hst

/-- The two sweep counters advance by exactly one per processed id. -/
theorem sweep_fold_count (enrich : Option Text → Text → Except Unit Text)
    (l : List Nat) (acc : DB × Nat × Nat) :
    (l.foldl (sweepStep enrich) acc).2.1 + (l.foldl (sweepStep enrich) acc).2.2
      = acc.2.1 + acc.2.2 + l.length := by
  induction l generalizing acc with
  | nil => simp
  | cons hd tl ih =>
    obtain ⟨d, p, f⟩ := acc
    rw [List.foldl_cons, ih]
    unfold sweepStep
    by_cases hr : (process_single_batch enrich d hd).2 = true <;>
      simp [hr] <;> omega

/-- In a store with no duplicate batch ids, `find?` locates a listed
row. -/
theorem find?_batches_eq_of_nodup (l : List (Nat × BatchRow))
    (hnodup : (l.map Prod.fst).Nodup) (e : Nat × BatchRow) (he : e ∈ l) :
    l.find? (fun b => b.1 = e.1) = some e := by
  induction l with
  | nil => cases he
  | cons hd tl ih =>
    rcases List.mem_cons.mp he with he' | he'
    · subst he'
      exact List.find?_cons_of_pos _ (by simp)
    · have hkey : hd.1 ≠ e.1 := by
        intro hk
        have : hd.1 ∈ tl.map Prod.fst := by
          rw [hk]; exact List.mem_map_of_mem Prod.fst he'
        exact (List.nodup_cons.mp (by simpa using hnodup)).1 this
      rw [List.find?_cons_of_neg _ (by simp [hkey])]
      exact ih (List.nodup_cons.mp (by simpa using hnodup)).2 he'

/-- `enrichTxn` never changes which batch a transaction belongs to. -/
theorem enrichTxn_batch (enrich : Option Text → Text → Except Unit Text)
    (t : TxnRow) : (enrichTxn enrich t).batch = t.batch := by
  unfold enrichTxn
  cases enrich t.merchant_name t.description <;> rfl

/-- The bulk update for one batch leaves another batch's selected
transaction set untouched. -/
theorem filter_txnSelected_map
    (enrich : Option Text → Text → Except Unit Text) (bid bid' : Nat)
    (h : bid ≠ bid') (l : List TxnRow) :
    ((l.map fun t => if txnSelected bid' t then enrichTxn enrich t
        else t).filter (txnSelected bid))
      = l.filter (txnSelected bid) := by
  induction l with
  | nil => rfl
  | cons hd tl ih =>
    rw [List.map_cons, List.filter_cons, List.filter_cons]
    by_cases hc : txnSelected bid' hd = true
    · have hbatch : hd.batch = some bid' := by
        have := (Bool.and_eq_true _ _).mp hc
        exact eq_of_beq this.1
      have hne' : (some bid' : Option Nat) ≠ some bid := by
        intro hk
        exact h (Option.some.inj hk).symm
      have hbeq : ((some bid' : Option Nat) == some bid) = false :=
        beq_eq_false_iff_ne.mpr hne'
      have hnot : txnSelected bid hd = false := by
        unfold txnSelected
        rw [hbatch, hbeq, Bool.false_and]
      have hnot' : txnSelected bid (enrichTxn enrich hd) = false := by
        unfold txnSelected
        rw [enrichTxn_batch, hbatch, hbeq, Bool.false_and]
      rw [if_pos hc, hnot', hnot]
      exact ih
    · rw [if_neg hc]
      by_cases hsel : txnSelected bid hd = true
      · rw [hsel, ih]
      · rw [Bool.eq_false_iff.mpr hsel, ih]

/-- `process_single_batch` on one batch leaves another batch's selected
transaction set untouched. -/
theorem filter_process_single_batch_ne
    (enrich : Option Text → Text → Except Unit Text) (d : DB)
    (bid' bid : Nat) (h : bid ≠ bid') :
    ((process_single_batch enrich d bid').1.transactions.filter
        (txnSelected bid))
      = d.transactions.filter (txnSelected bid) := by
  rcases hgb : d.getBatch bid' with _ | b
  · simp only [process_single_batch, hgb]
  · simp only [process_single_batch, hgb]
    by_cases hguard : b.status = .processing ∨ b.status = .completed
    · rw [if_pos hguard]
    · rw [if_neg hguard]
      split
      · rfl
      · exact filter_txnSelected_map enrich bid bid' h _

/-- One sweep iteration on one batch leaves another batch's selected
transaction set untouched. -/
theorem filter_sweepStep_ne
    (enrich : Option Text → Text → Except Unit Text) (d : DB) (p f : Nat)
    (bid' bid : Nat) (h : bid ≠ bid') :
    ((sweepStep enrich (d, p, f) bid').1.transactions.filter
        (txnSelected bid))
      = d.transactions.filter (txnSelected bid) := by
  simp only [sweepStep]
  by_cases hr : (process_single_batch enrich d bid').2 = true
  · simp only [hr, if_true]
    show ((DB.setBatchStatus _ bid' .failed).transactions.filter
        (txnSelected bid)) = _
    exact filter_process_single_batch_ne enrich d bid' bid h
  · simp only [hr, if_false, Bool.false_eq_true]
    exact filter_process_single_batch_ne enrich d bid' bid h

/-- Hence the failure condition of a batch is stable under a sweep
iteration on a different batch. -/
theorem batchEnrichFails_sweepStep_ne
    (enrich : Option Text → Text → Except Unit Text) (d : DB) (p f : Nat)
    (bid' bid : Nat) (h : bid ≠ bid') :
    batchEnrichFails enrich (sweepStep enrich (d, p, f) bid').1 bid
      = batchEnrichFails enrich d bid := by
  unfold batchEnrichFails
  rw [filter_sweepStep_ne enrich d p f bid' bid h]

/-- A sweep over ids not containing `bid` leaves `bid`'s batch row
alone. -/
theorem sweep_fold_getBatch_ne
    (enrich : Option Text → Text → Except Unit Text) (l : List Nat)
    (acc : DB × Nat × Nat) (bid : Nat) (h : bid ∉ l) :
    (l.foldl (sweepStep enrich) acc).1.getBatch bid = acc.1.getBatch bid := by
  induction l generalizing acc with
  | nil => rfl
  | cons hd tl ih =>
    obtain ⟨d, p, f⟩ := acc
    have hne : bid ≠ hd := fun hk => h (hk ▸ List.mem_cons_self hd tl)
    have htl : bid ∉ tl := fun hk => h (List.mem_cons_of_mem hd hk)
    rw [List.foldl_cons, ih _ htl]
    exact getBatch_sweepStep_ne enrich d p f hd bid hne

/-- One sweep iteration on a `PENDING` batch marks it `FAILED` exactly
when enrichment raises on one of its selected transactions, and
`COMPLETED` otherwise. -/
theorem getBatch_sweepStep_pending
    (enrich : Option Text → Text → Except Unit Text) (d : DB) (p f : Nat)
    (bid : Nat) (b : BatchRow) (hb : d.getBatch bid = some b)
    (hbs : b.status = .pending) :
    (sweepStep enrich (d, p, f) bid).1.getBatch bid
      = some { b with status :=
          if batchEnrichFails enrich d bid then Status.failed
          else Status.completed } := by
  have hguard : ¬(b.status = .processing ∨ b.status = .completed) := by
    rintro (h | h) <;> rw [hbs] at h <;> exact Status.noConfusion h
  by_cases hfail : batchEnrichFails enrich d bid = true
  · have hfailX : ((List.filter (txnSelected bid)
        (d.setBatchStatus bid Status.processing).transactions).any fun t =>
        !(enrich t.merchant_name t.description).isOk) = true := hfail
    have hps : process_single_batch enrich d bid = (d, true) := by
      simp only [process_single_batch, hb]
      rw [if_neg hguard, if_pos hfailX]
    rw [if_pos hfail]
    simp only [sweepStep, hps, if_true]
    rw [getBatch_setBatchStatus_self, hb]
    rfl
  · have hfailX : ¬(((List.filter (txnSelected bid)
        (d.setBatchStatus bid Status.processing).transactions).any fun t =>
        !(enrich t.merchant_name t.description).isOk) = true) := hfail
    have hps2 : (process_single_batch enrich d bid).2 = false := by
      simp only [process_single_batch, hb]
      rw [if_neg hguard, if_neg hfailX]
    have hps1 : (process_single_batch enrich d bid).1.getBatch bid
        = some { b with status := .completed } := by
      simp only [process_single_batch, hb]
      rw [if_neg hguard, if_neg hfailX]
      show (DB.setBatchStatus _ bid .completed).getBatch bid = _
      rw [getBatch_setBatchStatus_self, getBatch_set_transactions,
        getBatch_setBatchStatus_self, hb]
      rfl
    rw [if_neg hfail]
    simp only [sweepStep, hps2]
    simpa using hps1

/-- Every initially `PENDING` batch ends the sweep `FAILED` when its
enrichment raises and `COMPLETED` otherwise. -/
theorem sweep_fold_pending_status
    (enrich : Option Text → Text → Except Unit Text)
    (l : List Nat) (d : DB) (p f : Nat) (hnd : l.Nodup)
    (hpend : ∀ bid ∈ l, ∃ b, d.getBatch bid = some b ∧
      b.status = .pending) :
    ∀ bid ∈ l, ∃ b',
      (l.foldl (sweepStep enrich) (d, p, f)).1.getBatch bid = some b'
        ∧ b'.status = (if batchEnrichFails enrich d bid then Status.failed
            else Status.completed) := by
  induction l generalizing d p f with
  | nil => intro bid h; cases h
  | cons hd tl ih =>
    intro bid hmem
    rw [List.foldl_cons]
    rcases hacc : sweepStep enrich (d, p, f) hd with ⟨d1, p1, f1⟩
    have hnd' : tl.Nodup := (List.nodup_cons.mp hnd).2
    have hni : hd ∉ tl := (List.nodup_cons.mp hnd).1
    rcases List.mem_cons.mp hmem with hbid | hbid
    · subst hbid
      obtain ⟨b, hb, hbs⟩ := hpend bid (List.mem_cons_self bid tl)
      have hstep := getBatch_sweepStep_pending enrich d p f bid b hb hbs
      rw [hacc] at hstep
      refine ⟨{ b with status :=
          if batchEnrichFails enrich d bid then Status.failed
          else Status.completed }, ?_, rfl⟩
      rw [sweep_fold_getBatch_ne enrich tl (d1, p1, f1) bid hni]
      exact hstep
    · have hne : bid ≠ hd := fun h => hni (h ▸ hbid)
      have hframe : ∀ bid' ∈ tl, ∃ b, d1.getBatch bid' = some b ∧
          b.status = .pending := by
        intro bid' hbid'
        have hne' : bid' ≠ hd := fun h => hni (h ▸ hbid')
        obtain ⟨b, hb, hbs⟩ := hpend bid' (List.mem_cons_of_mem hd hbid')
        refine ⟨b, ?_, hbs⟩
        have := getBatch_sweepStep_ne enrich d p f hd bid' hne'
        rw [hacc] at this
        rw [this]
        exact hb
      obtain ⟨b', hb', hst'⟩ := ih d1 p1 f1 hnd' hframe bid hbid
      refine ⟨b', hb', ?_⟩
      rw [hst']
      have hfr := batchEnrichFails_sweepStep_ne enrich d p f hd bid hne
      rw [hacc] at hfr
      rw [hfr]

/-- C4: invoking single-batch processing on a batch whose status is
`PROCESSING` or `COMPLETED` returns immediately as a no-op: the store —
batch rows and transaction rows alike — is returned unchanged and no
exception propagates. -/
theorem process_single_batch_guard_noop
    (enrich : Option Text → Text → Except Unit Text) (db : DB) (bid : Nat)
    (b : BatchRow) (hb : db.getBatch bid = some b)
    (hst : b.status = .processing ∨ b.status = .completed) :
    process_single_batch enrich db bid = (db, false) := by
  simp only [process_single_batch, hb]
  rw [if_pos hst]

/-- C4 witness: the guard fires on a concrete `PROCESSING` batch. -/
theorem process_single_batch_guard_noop_witness :
    oneProcessingBatchDB.getBatch 0
        = some { status := .processing, total_transactions := 1,
                 request_id := none }
      ∧ process_single_batch enrichRaise oneProcessingBatchDB 0
        = (oneProcessingBatchDB, false) :=
  ⟨by decide,
    process_single_batch_guard_noop enrichRaise oneProcessingBatchDB 0
      { status := .processing, total_transactions := 1, request_id := none }
      (by decide) (Or.inl rfl)⟩

/-- C10: the idempotent guard does not cover `FAILED`: a `FAILED` batch is
re-processed — no exception propagates, the batch row transitions (through
`PROCESSING`) to `COMPLETED`, and every `PENDING` transaction of the batch
is enriched with its category and marked `COMPLETED`. -/
theorem process_single_batch_failed_reprocessed
    (enrich : Option Text → Text → Except Unit Text) (db : DB) (bid : Nat)
    (b : BatchRow) (hb : db.getBatch bid = some b) (hf : b.status = .failed)
    (hok : ∀ t ∈ db.transactions, txnSelected bid t →
      (enrich t.merchant_name t.description).isOk) :
    (process_single_batch enrich db bid).2 = false
    ∧ (process_single_batch enrich db bid).1.getBatch bid
        = some { b with status := .completed }
    ∧ (process_single_batch enrich db bid).1.transactions
        = (db.transactions.map fun t =>
            if txnSelected bid t then enrichTxn enrich t else t)
    ∧ ∀ t : TxnRow, ∀ c, enrich t.merchant_name t.description = .ok c →
        (enrichTxn enrich t).category = some c
        ∧ (enrichTxn enrich t).ingestion_status = .completed := by
  have hguard : ¬(b.status = .processing ∨ b.status = .completed) := by
    rintro (h | h) <;> rw [hf] at h <;> exact Status.noConfusion h
  have hanyf : (((db.setBatchStatus bid .processing).transactions.filter
        (txnSelected bid)).any
      (fun t => !(enrich t.merchant_name t.description).isOk)) = false := by
    apply List.any_eq_false.mpr
    intro t ht
    have ht' := List.mem_filter.mp ht
    have hok' : (enrich t.merchant_name t.description).isOk :=
      hok t ht'.1 ht'.2
    simp [hok']
  have hcond : ¬((((db.setBatchStatus bid .processing).transactions.filter
        (txnSelected bid)).any
      (fun t => !(enrich t.merchant_name t.description).isOk)) = true) := by
    simp [hanyf]
  refine ⟨?_, ?_, ?_, ?_⟩
  · simp only [process_single_batch, hb]
    rw [if_neg hguard, if_neg hcond]
  · simp only [process_single_batch, hb]
    rw [if_neg hguard, if_neg hcond]
    show (DB.setBatchStatus _ bid .completed).getBatch bid = _
    rw [getBatch_setBatchStatus_self, getBatch_set_transactions,
      getBatch_setBatchStatus_self, hb]
    rfl
  · simp only [process_single_batch, hb]
    rw [if_neg hguard, if_neg hcond]
    rfl
  · intro t c hc
    simp [enrichTxn, hc]

/-- C10 witness: a concrete `FAILED` batch is re-processed to
`COMPLETED`. -/
theorem process_single_batch_failed_reprocessed_witness :
    (process_single_batch enrichFood oneFailedBatchDB 0).2 = false
      ∧ (process_single_batch enrichFood oneFailedBatchDB 0).1.getBatch 0
        = some { status := .completed, total_transactions := 1,
                 request_id := none } := by
  have h := process_single_batch_failed_reprocessed enrichFood
    oneFailedBatchDB 0
    { status := .failed, total_transactions := 1, request_id := none }
    (by decide) rfl (by decide)
  exact ⟨h.1, h.2.1⟩

/-- C1: the code does NOT persist `FAILED` when the on-demand trigger's
single-batch processing raises during enrichment.  `process_single_batch`
runs under `@transaction.atomic`; its `except` branch saves `FAILED` and
re-raises, and the re-raise rolls the whole transaction back — the
`FAILED` save included.  At this failing input (a `PENDING` batch whose
enrichment raises, run through `process_batch_async`) the batch is left
`PENDING`, contradicting the claimed `FAILED`; the transactions do keep
their prior `ingestion_status` and `category`, as claimed. -/
theorem async_failure_leaves_batch_pending :
    (process_batch_async enrichRaise onePendingBatchDB 0).1
        = onePendingBatchDB
      ∧ (process_batch_async enrichRaise onePendingBatchDB 0).1.getBatch 0
        = some { status := .pending, total_transactions := 1,
                 request_id := none }
      ∧ (process_batch_async enrichRaise onePendingBatchDB 0).1.transactions
        = [oneTxn] := by
  refine ⟨by decide, by decide, by decide⟩

/-- C9: one sweep pass processes the initially `PENDING` batches in list
(oldest-first) order; the returned `{processed, failed}` counts sum to
the number of batches that were `PENDING` when the sweep started, and
every such batch ends the sweep with its row persisted as `FAILED` when
its enrichment raised (the failure is caught, the batch marked `FAILED`,
and the sweep continues over the remaining batches) and `COMPLETED`
otherwise. -/
theorem process_pending_batches_counts
    (enrich : Option Text → Text → Except Unit Text) (db : DB)
    (hnodup : (db.batches.map Prod.fst).Nodup) :
    (process_pending_batches enrich db).2.1
        + (process_pending_batches enrich db).2.2
      = ((db.batches.filter fun b => b.2.status = .pending).map
          Prod.fst).length
    ∧ ∀ bid ∈ (db.batches.filter fun b => b.2.status = .pending).map
        Prod.fst,
        ∃ b', (process_pending_batches enrich db).1.getBatch bid = some b'
          ∧ b'.status = (if batchEnrichFails enrich db bid
              then Status.failed else Status.completed) := by
  constructor
  · simp only [process_pending_batches]
    rw [sweep_fold_count]
    simp
  · simp only [process_pending_batches]
    apply sweep_fold_pending_status
    · exact ((List.filter_sublist _).map Prod.fst).nodup hnodup
    · intro bid hbid
      obtain ⟨e, he, hkey⟩ := List.mem_map.mp hbid
      subst hkey
      have hmem' : e ∈ db.batches := (List.mem_filter.mp he).1
      have hstat : e.2.status = .pending := by
        have := (List.mem_filter.mp he).2
        simpa using this
      refine ⟨e.2, ?_, hstat⟩
      unfold DB.getBatch
      rw [find?_batches_eq_of_nodup db.batches hnodup e hmem']
      rfl

/-- C9 witness: a one-batch store whose enrichment raises yields counts
`{processed := 0, failed := 1}` and the batch ends marked `FAILED`. -/
theorem process_pending_batches_counts_witness :
    (process_pending_batches enrichRaise onePendingBatchDB).2.1
        + (process_pending_batches enrichRaise onePendingBatchDB).2.2 = 1
      ∧ ∃ b', (process_pending_batches enrichRaise
            onePendingBatchDB).1.getBatch 0 = some b'
          ∧ b'.status = .failed := by
  have h := process_pending_batches_counts enrichRaise onePendingBatchDB
    (by decide)
  refine ⟨h.1.trans (by decide), ?_⟩
  obtain ⟨b', hb', hst⟩ := h.2 0 (by decide)
  refine ⟨b', hb', ?_⟩
  rw [hst]
  decide

/-! ### Ingestion lemmas -/

/-- Insert-or-ignore never adds or changes rows of an id that is already
present. -/
theorem insert_fold_dedup (bid : Nat) (l : List ValidTxn)
    (acc : List TxnRow) (tid : Text)
    (hmem : tid ∈ acc.map TxnRow.transaction_id) :
    ((l.foldl (insertTxnIgnore bid) acc).filter
        fun t => t.transaction_id = tid)
      = acc.filter fun t => t.transaction_id = tid := by
  induction l generalizing acc with
  | nil => rfl
  | cons hd tl ih =>
    rw [List.foldl_cons]
    by_cases hex :
        (acc.any fun e => e.transaction_id = hd.transaction_id) = true
    · rw [show insertTxnIgnore bid acc hd = acc from by
        simp only [insertTxnIgnore]; rw [if_pos hex]]
      exact ih acc hmem
    · have hstep : insertTxnIgnore bid acc hd = acc ++ [mkTxn bid hd] := by
        simp only [insertTxnIgnore]; rw [if_neg hex]
      obtain ⟨w, hw, hwid⟩ := List.mem_map.mp hmem
      have hne : ¬(hd.transaction_id = tid) := by
        intro hk
        apply hex
        apply List.any_eq_true.mpr
        exact ⟨w, hw, by simp [hwid, hk]⟩
      have hmem' : tid ∈ (acc ++ [mkTxn bid hd]).map TxnRow.transaction_id := by
        rw [List.map_append]
        exact List.mem_append_left _ hmem
      rw [hstep, ih (acc ++ [mkTxn bid hd]) hmem', List.filter_append]
      have hmk : (mkTxn bid hd).transaction_id = hd.transaction_id := rfl
      simp [hmk, hne]

/-- C5: ingesting any payload leaves the rows of an already-present
`transaction_id` exactly as they were — no second row with that id
appears and no field of the existing row changes. -/
theorem ingest_dedup (oracle : Option IngestStep) (db : DB)
    (p : RawPayload) (tid : Text)
    (hmem : tid ∈ db.transactions.map TxnRow.transaction_id) :
    ((batch_ingestion_post oracle db p).1.transactions.filter
        fun t => t.transaction_id = tid)
      = db.transactions.filter fun t => t.transaction_id = tid := by
  rcases hv : validatePayload p with _ | vp
  · simp only [batch_ingestion_post, hv]
  · rcases hc : serializer_create oracle db vp with _ | r
    · simp only [batch_ingestion_post, hv, hc]
    · simp only [batch_ingestion_post, hv, hc]
      simp only [serializer_create] at hc
      split_ifs at hc with h1 h2 h3
      injection hc with hc'
      rw [← hc']
      exact insert_fold_dedup db.nextBatch vp.transactions
        db.transactions tid hmem

/-- C5 witness: re-submitting the stored transaction `t1` leaves its rows
untouched. -/
theorem ingest_dedup_witness :
    ((batch_ingestion_post none onePendingBatchDB
          rawPayloadDup).1.transactions.filter
        fun t => t.transaction_id = "t1".toList)
      = onePendingBatchDB.transactions.filter
        fun t => t.transaction_id = "t1".toList :=
  ingest_dedup none onePendingBatchDB rawPayloadDup "t1".toList (by decide)

/-- C6: ingestion is all-or-nothing — a payload with a missing required
field is rejected with a bad request and no write at all, and whenever
the atomic create fails (at whichever of its three steps) the caller
observes the store unchanged. -/
theorem ingest_all_or_nothing (oracle : Option IngestStep) (db : DB)
    (p : RawPayload) :
    (validatePayload p = none →
      batch_ingestion_post oracle db p = (db, .badRequest))
    ∧ ((batch_ingestion_post oracle db p).2 = .serverError →
        (batch_ingestion_post oracle db p).1 = db) := by
  constructor
  · intro hv
    simp only [batch_ingestion_post, hv]
  · intro hresp
    rcases hv : validatePayload p with _ | vp
    · simp only [batch_ingestion_post, hv]
    · rcases hc : serializer_create oracle db vp with _ | r
      · simp only [batch_ingestion_post, hv, hc]
      · exfalso
        simp only [batch_ingestion_post, hv, hc] at hresp
        cases hresp

/-- C6 witness: a payload missing `accounts` is rejected without writes,
and a failure during the batch-creation step of a valid payload leaves
the store unchanged. -/
theorem ingest_all_or_nothing_witness :
    batch_ingestion_post none emptyDB rawPayloadMissing
        = (emptyDB, .badRequest)
      ∧ (batch_ingestion_post (some .batch) emptyDB rawPayloadDup).1
        = emptyDB :=
  ⟨(ingest_all_or_nothing none emptyDB rawPayloadMissing).1 rfl,
    (ingest_all_or_nothing (some .batch) emptyDB rawPayloadDup).2
      (by decide)⟩

/-! ### Date-range validation -/

/-- C8: for well-formed dates the validation succeeds exactly when the
end date does not precede the start date and the span is at most 365
days (so exactly 365 is accepted and 366 rejected), and a malformed date
string is always rejected. -/
theorem validate_date_range_spec (s e : Text) :
    (∀ ds, parseDate s = some ds → ∀ de, parseDate e = some de →
      ((validate_date_range s e).isOk = true ↔
        (ds.toOrdinal ≤ de.toOrdinal
          ∧ de.toOrdinal - ds.toOrdinal ≤ 365)))
    ∧ ((parseDate s = none ∨ parseDate e = none) →
        (validate_date_range s e).isOk = false) := by
  constructor
  · intro ds hs de he
    simp only [validate_date_range, hs, he]
    by_cases h1 : de.toOrdinal < ds.toOrdinal
    · rw [if_pos h1]
      simp only [Except.isOk, Except.toBool]
      constructor
      · intro h; cases h
      · rintro ⟨hle, _⟩; omega
    · rw [if_neg h1]
      by_cases h2 : 365 < de.toOrdinal - ds.toOrdinal
      · rw [if_pos h2]
        simp only [Except.isOk, Except.toBool]
        constructor
        · intro h; cases h
        · rintro ⟨_, hle⟩; omega
      · rw [if_neg h2]
        simp only [Except.isOk, Except.toBool]
        constructor
        · intro _; omega
        · intro _; trivial
  · rintro (h | h)
    · simp only [validate_date_range, h]
      rfl
    · rcases hs : parseDate s with _ | ds
      · simp only [validate_date_range, hs]
        rfl
      · simp only [validate_date_range, hs, h]
        rfl

/-- C8 witness: 2023-01-01 → 2024-01-01 spans exactly 365 days and is
accepted; 2023-01-01 → 2024-01-02 spans 366 days and is rejected; a
malformed start date is rejected. -/
theorem validate_date_range_spec_witness :
    (validate_date_range "2023-01-01".toList "2024-01-01".toList).isOk
        = true
      ∧ (validate_date_range "2023-01-01".toList "2024-01-02".toList).isOk
        = false
      ∧ (validate_date_range "2023-13-01".toList "2024-01-01".toList).isOk
        = false := by
  refine ⟨?_, ?_, ?_⟩
  · exact ((validate_date_range_spec "2023-01-01".toList
        "2024-01-01".toList).1 { year := 2023, month := 1, day := 1 }
        (by decide) { year := 2024, month := 1, day := 1 }
        (by decide)).mpr (by decide)
  · have h := (validate_date_range_spec "2023-01-01".toList
        "2024-01-02".toList).1 { year := 2023, month := 1, day := 1 }
        (by decide) { year := 2024, month := 1, day := 2 } (by decide)
    exact Bool.eq_false_iff.mpr fun hh => absurd (h.mp hh) (by decide)
  · exact (validate_date_range_spec "2023-13-01".toList
        "2024-01-01".toList).2 (Or.inl (by decide))

/-! ### Reporting lemmas -/

/-- The conditional spend sum equals the sum over the expense rows. -/
theorem spend_signed_eq (m : List TxnRow) :
    summary_total_spend_signed m
      = ((m.filter fun t => t.amount < 0).map TxnRow.amount).sum := by
  unfold summary_total_spend_signed
  induction m with
  | nil => rfl
  | cons hd tl ih =>
    by_cases h : hd.amount < 0 <;> simp [List.filter_cons, h, ih]

/-- The conditional income sum equals the sum over the non-negative
rows. -/
theorem income_eq (m : List TxnRow) :
    summary_total_income m
      = ((m.filter fun t => 0 ≤ t.amount).map TxnRow.amount).sum := by
  unfold summary_total_income
  induction m with
  | nil => rfl
  | cons hd tl ih =>
    by_cases h : 0 ≤ hd.amount <;> simp [List.filter_cons, h, ih]

/-- One grouping step preserves the group invariant: negative sum, at
least one row, and a witnessing row for the group's category key. -/
theorem addToGroups_inv (L : List TxnRow)
    (acc : List (Option Text × Int × Nat)) (t : TxnRow)
    (htL : t ∈ L) (htn : t.amount < 0)
    (hacc : ∀ g ∈ acc, g.2.1 < 0 ∧ 1 ≤ g.2.2 ∧ ∃ u ∈ L, u.category = g.1) :
    ∀ g ∈ addToGroups acc t,
      g.2.1 < 0 ∧ 1 ≤ g.2.2 ∧ ∃ u ∈ L, u.category = g.1 := by
  intro g hg
  unfold addToGroups at hg
  by_cases hex : (acc.any fun g => g.1 = t.category) = true
  · rw [if_pos hex] at hg
    obtain ⟨g0, hg0, hup⟩ := List.mem_map.mp hg
    obtain ⟨h1, h2, h3⟩ := hacc g0 hg0
    by_cases hk : g0.1 = t.category
    · rw [if_pos (by simpa using hk)] at hup
      rw [← hup]
      exact ⟨by simpa using add_neg h1 htn,
        by simp [Nat.le_succ_of_le h2], by simpa using h3⟩
    · rw [if_neg (by simpa using hk)] at hup
      rw [← hup]
      exact ⟨h1, h2, h3⟩
  · rw [if_neg hex] at hg
    rcases List.mem_append.mp hg with hg' | hg'
    · exact hacc g hg'
    · have hgeq : g = (t.category, t.amount, 1) := by simpa using hg'
      rw [hgeq]
      exact ⟨htn, le_refl 1, ⟨t, htL, rfl⟩⟩

/-- The grouping fold preserves the group invariant. -/
theorem groupBy_fold_inv (L : List TxnRow) (l : List TxnRow)
    (acc : List (Option Text × Int × Nat))
    (hl : ∀ t ∈ l, t ∈ L ∧ t.amount < 0)
    (hacc : ∀ g ∈ acc, g.2.1 < 0 ∧ 1 ≤ g.2.2 ∧ ∃ u ∈ L, u.category = g.1) :
    ∀ g ∈ l.foldl addToGroups acc,
      g.2.1 < 0 ∧ 1 ≤ g.2.2 ∧ ∃ u ∈ L, u.category = g.1 := by
  induction l generalizing acc with
  | nil => exact hacc
  | cons hd tl ih =>
    rw [List.foldl_cons]
    have hhd := hl hd (List.mem_cons_self hd tl)
    exact ih (addToGroups acc hd)
      (fun t ht => hl t (List.mem_cons_of_mem hd ht))
      (addToGroups_inv L acc hd hhd.1 hhd.2 hacc)

/-- Every group of the expense grouping has a strictly negative sum, at
least one row, and a member row carrying its category key. -/
theorem groupBy_prop (m : List TxnRow) :
    ∀ g ∈ groupByCategory (m.filter fun t => t.amount < 0),
      g.2.1 < 0 ∧ 1 ≤ g.2.2 ∧ ∃ u ∈ m, u.category = g.1 := by
  apply groupBy_fold_inv m
  · intro t ht
    have h := List.mem_filter.mp ht
    exact ⟨h.1, by simpa using h.2⟩
  · intro g hg
    cases hg

/-- The three ranked top groups are groups of the expense grouping. -/
theorem top_categories_data_subset (m : List TxnRow) :
    ∀ g ∈ top_categories_data m,
      g ∈ groupByCategory (m.filter fun t => t.amount < 0) := by
  intro g hg
  unfold top_categories_data at hg
  exact (List.perm_insertionSort (fun a b => a.2.1 ≤ b.2.1) _).subset
    ((List.take_sublist 3 _).subset hg)

/-- C7: the summary's metrics satisfy the spec — `total_spend` is the
positive magnitude of the negative-amount sum, `total_income` the sum of
non-negative amounts, `net` their signed algebraic sum; the top
categories are at most 3, ordered by spend descending (most negative
summed amount first), each with positive displayed spend, at least one
transaction, a category name from a matching row or the literal
`"Uncategorized"` for null, and a percentage that is 0 whenever total
spend is 0. -/
theorem account_summary_spec (txns : List TxnRow) (aid : Text)
    (s e : Int) :
    (account_summary txns aid s e).total_spend
        = |(((summary_qs txns aid s e).filter fun t => t.amount < 0).map
            TxnRow.amount).sum|
    ∧ (account_summary txns aid s e).total_income
        = (((summary_qs txns aid s e).filter fun t => 0 ≤ t.amount).map
            TxnRow.amount).sum
    ∧ (account_summary txns aid s e).net
        = (account_summary txns aid s e).total_income
          + (((summary_qs txns aid s e).filter fun t => t.amount < 0).map
              TxnRow.amount).sum
    ∧ (account_summary txns aid s e).top_categories.length ≤ 3
    ∧ (account_summary txns aid s e).top_categories.Pairwise
        (fun a b => b.total_spend ≤ a.total_spend)
    ∧ (∀ c ∈ (account_summary txns aid s e).top_categories,
        0 < c.total_spend ∧ 1 ≤ c.transaction_count
        ∧ ((∃ t ∈ summary_qs txns aid s e, t.category = some c.category)
            ∨ c.category = "Uncategorized".toList))
    ∧ ((account_summary txns aid s e).total_spend = 0 →
        ∀ c ∈ (account_summary txns aid s e).top_categories,
          c.percentage_of_spend = 0) := by
  refine ⟨?_, ?_, ?_, ?_, ?_, ?_, ?_⟩
  · show |summary_total_spend_signed (summary_qs txns aid s e)| = _
    rw [spend_signed_eq]
  · exact income_eq (summary_qs txns aid s e)
  · show summary_total_income (summary_qs txns aid s e)
        + summary_total_spend_signed (summary_qs txns aid s e) = _
    rw [spend_signed_eq]
    exact rfl
  · show ((top_categories_data (summary_qs txns aid s e)).map _).length ≤ 3
    rw [List.length_map]
    unfold top_categories_data
    rw [List.length_take]
    exact min_le_left _ _
  · show ((top_categories_data (summary_qs txns aid s e)).map _).Pairwise _
    apply List.pairwise_map.mpr
    have hsorted := List.sorted_insertionSort (fun a b => a.2.1 ≤ b.2.1)
      (groupByCategory ((summary_qs txns aid s e).filter
        fun t => t.amount < 0))
    have htake : (top_categories_data (summary_qs txns aid s e)).Pairwise
        (fun a b => a.2.1 ≤ b.2.1) :=
      List.Pairwise.sublist (List.take_sublist 3 _) hsorted
    apply htake.imp_of_mem
    intro a b ha hb hr
    have hbneg := (groupBy_prop (summary_qs txns aid s e) b
      (top_categories_data_subset _ b hb)).1
    have haneg := (groupBy_prop (summary_qs txns aid s e) a
      (top_categories_data_subset _ a ha)).1
    show |b.2.1| ≤ |a.2.1|
    rw [abs_of_neg hbneg, abs_of_neg haneg]
    omega
  · intro c hc
    obtain ⟨g, hg, hgc⟩ := List.mem_map.mp hc
    obtain ⟨hneg, hcnt, u, hu, hcat⟩ := groupBy_prop
      (summary_qs txns aid s e) g (top_categories_data_subset _ g hg)
    rw [← hgc]
    refine ⟨abs_pos.mpr (ne_of_lt hneg), hcnt, ?_⟩
    rcases hk : g.1 with _ | n
    · right
      simp [hk]
    · left
      refine ⟨u, hu, ?_⟩
      rw [hcat, hk]
      rfl
  · intro hzero c hc
    have hspend0 : summary_total_spend_signed (summary_qs txns aid s e)
        = 0 := abs_eq_zero.mp hzero
    obtain ⟨g, hg, hgc⟩ := List.mem_map.mp hc
    rw [← hgc]
    show get_percentage_of_spend _ g.2.1 = 0
    rw [hspend0]
    simp [get_percentage_of_spend]

/-- C7 witness: the summary over one uncategorized expense transaction. -/
theorem account_summary_spec_witness :
    (account_summary [oneTxn] "a1".toList 0 10).total_spend = 500
      ∧ (account_summary [oneTxn] "a1".toList 0 10).top_categories.length
          ≤ 3
      ∧ ∀ c ∈ (account_summary [oneTxn] "a1".toList 0 10).top_categories,
          0 < c.total_spend ∧ 1 ≤ c.transaction_count
          ∧ ((∃ t ∈ summary_qs [oneTxn] "a1".toList 0 10,
              t.category = some c.category)
            ∨ c.category = "Uncategorized".toList) := by
  have h := account_summary_spec [oneTxn] "a1".toList 0 10
  exact ⟨h.1.trans (by decide), h.2.2.2.1, h.2.2.2.2.2.1⟩

end BI
